import Mathlib

/-!
Verification of the mentor-app kanban board and calendar components.

The development shallowly embeds the TypeScript source of the application:
the board model and type catalog of `app.component.ts` and the weekly
calendar projection of `calendar.component.ts`.  The repository snapshot
contains two revisions of each component; the embedding follows the revision
the specification was written from (the one with the deferred re-read after a
cross-day drag, index clamping in `onDrop`, the three-branch date write-back,
and column moves on task edit), and where the two revisions of a function
differ in a way a claim depends on, both are embedded and named.

Modelling conventions:
* JavaScript `Date` values are integer day numbers (days since 1970-01-01,
  as `Int`) paired, where time of day matters, with a
  milliseconds-of-day component.  The local clock is modelled as a fixed
  offset equal to UTC (no DST), under which `getDay`, `setDate`,
  `setHours(0,0,0,0)`, `toISOString().split('T')[0]` and ISO `YYYY-MM-DD`
  parsing all reduce to integer day arithmetic.
* `new Date(str)` applied to the date strings this application stores is
  modelled by `parseDateStr`, a strict ISO `YYYY-MM-DD` parser with calendar
  validation: out-of-range components yield an invalid date (`none`),
  matching the ECMAScript date-only ISO parse returning `NaN`.
* JavaScript fields that can be `undefined`, `null` or a string are modelled
  by `JStr`; truthiness (`||`-chains) and `!== undefined` checks are
  translated exactly.
* numeric `estimatedTimeHours` values are modelled as naturals (every value
  the claims exercise is integral); `0` is falsy in JavaScript and the
  embedding keeps that distinction explicit.
* `localStorage` blobs are modelled by `Stored α`: a key can be absent,
  present but not JSON-parseable (`malformed`), or hold a parsed value.
  `JSON.parse` of a malformed blob throws; functions of the source that do
  not catch that exception are embedded in `Except Unit`.
-/

set_option linter.unusedVariables false

namespace MentorApp

/-- Gregorian leap-year test. -/
def isLeapYear (y : Int) : Bool :=
  (y % 4 == 0 && y % 100 != 0) || y % 400 == 0

/-- Length of month `m` in year `y` (Gregorian). -/
def daysInMonth (y m : Int) : Int :=
  if m = 2 then (if isLeapYear y then 29 else 28)
  else if m = 4 ∨ m = 6 ∨ m = 9 ∨ m = 11 then 30
  else 31

/-- Day number of the civil date `y-m-d` (standard civil-from-days algorithm;
all divisions are on non-negative operands except the era, which uses floor
division). -/
def daysFromCivil (y m d : Int) : Int :=
  let y2 := if m ≤ 2 then y - 1 else y
  let era := y2.fdiv 400
  let yoe := y2 - era * 400
  let mp := (m + 9) % 12
  let doy := (153 * mp + 2) / 5 + d - 1
  let doe := yoe * 365 + yoe / 4 - yoe / 100 + doy
  era * 146097 + doe - 719468

/-- Civil date `(y, m, d)` of a day number (inverse of `daysFromCivil`). -/
def civilFromDays (z : Int) : Int × Int × Int :=
  let z2 := z + 719468
  let era := z2.fdiv 146097
  let doe := z2 - era * 146097
  let yoe := (doe - doe / 1460 + doe / 36524 - doe / 146096) / 365
  let y := yoe + era * 400
  let doy := doe - (365 * yoe + yoe / 4 - yoe / 100)
  let mp := (5 * doy + 2) / 153
  let d := doy - (153 * mp + 2) / 5 + 1
  let m := if mp < 10 then mp + 3 else mp - 9
  (if m ≤ 2 then y + 1 else y, m, d)

/-- Fold a non-empty all-digit character list to the natural it denotes. -/
def digitsToNat (cs : List Char) : Option Nat :=
  if cs ≠ [] ∧ cs.all Char.isDigit then
    some (cs.foldl (fun acc c => acc * 10 + (c.toNat - 48)) 0)
  else none

/-- Split a character list on a separator character. -/
def splitOnChar (sep : Char) : List Char → List (List Char)
  | [] => [[]]
  | c :: rest =>
    let r := splitOnChar sep rest
    if c = sep then [] :: r
    else
      match r with
      | [] => [[c]]
      | h :: t => (c :: h) :: t

/-- Model of `new Date(s).getTime()` (in days) for the ISO `YYYY-MM-DD`
strings this application stores: `none` models an invalid date (`NaN`). -/
def parseDateStr (s : String) : Option Int :=
  match splitOnChar '-' s.data with
  | [ys, ms, ds] =>
    if ys.length = 4 ∧ ms.length = 2 ∧ ds.length = 2 then
      match digitsToNat ys, digitsToNat ms, digitsToNat ds with
      | some y, some m, some d =>
        if 1 ≤ m ∧ m ≤ 12 ∧ 1 ≤ d ∧ (d : Int) ≤ daysInMonth y m then
          some (daysFromCivil y m d)
        else none
      | _, _, _ => none
    else none
  | _ => none

/-- Digit characters of a natural, most significant first (fuel-indexed). -/
def natDigitsAux : Nat → Nat → List Char → List Char
  | 0, _, acc => acc
  | fuel + 1, n, acc =>
    if n < 10 then Char.ofNat (48 + n) :: acc
    else natDigitsAux fuel (n / 10) (Char.ofNat (48 + n % 10) :: acc)

/-- Decimal digits of `n`, left-padded with zeros to `width` characters. -/
def padNat (width n : Nat) : List Char :=
  let ds := natDigitsAux (n + 1) n []
  List.replicate (width - ds.length) '0' ++ ds

/-- Model of `d.toISOString().split('T')[0]` for a local-midnight date:
the `YYYY-MM-DD` rendering of a day number. -/
def formatDateISO (z : Int) : String :=
  match civilFromDays z with
  | (y, m, d) =>
    String.mk (padNat 4 y.toNat ++ ('-' :: padNat 2 m.toNat) ++ ('-' :: padNat 2 d.toNat))

/-- A JavaScript field that can be `undefined`, `null`, or a string. -/
inductive JStr where
  | undef : JStr
  | jnull : JStr
  | str : String → JStr
deriving DecidableEq

/-- JavaScript falsiness of a `JStr` (`undefined`, `null` and `""` are falsy). -/
def JStr.falsy : JStr → Bool
  | .undef => true
  | .jnull => true
  | .str s => s.isEmpty

/-- The string held by a `JStr`, if any. -/
def JStr.toOpt : JStr → Option String
  | .str s => some s
  | _ => none

/-- Board task, after the `Task` interface of `app.component.ts` (fields a
stored blob may omit are `JStr`/`Option`). -/
structure Task where
  id : String
  title : String := ""
  description : String := ""
  priority : String := "medium"
  dueDate : JStr := .undef
  assignee : Option String := none
  estimatedTimeHours : Option Nat := none
  scheduleDate : JStr := .undef
  type : Option String := none
deriving DecidableEq

/-- Board column, after the `Column` interface of `app.component.ts`. -/
structure Column where
  id : String
  title : String := ""
  tasks : List Task := []
deriving DecidableEq

/-- Catalog entry, after the `TaskType` interface of `app.component.ts`. -/
structure TaskType where
  id : String
  name : String
  color : String
  enabled : Bool
  forTasks : Bool
  forEvents : Bool
deriving DecidableEq

/-- Derived calendar item, after the `CalendarTask` interface of
`calendar.component.ts`. -/
structure CalendarTask where
  id : String
  title : String
  dayIndex : Nat
  typeId : String
  durationMinutes : Nat
deriving DecidableEq

/-- A `localStorage` slot: absent, present but not JSON-parseable, or a
parsed value. -/
inductive Stored (α : Type) where
  | absent : Stored α
  | malformed : Stored α
  | val : α → Stored α
deriving DecidableEq

/-- Entry of the calendar component's fixed `types` member. -/
structure CalendarType where
  id : String
  name : String
  color : String
deriving DecidableEq

/-- The calendar component's hardcoded `types` catalog. -/
def types : List CalendarType :=
  [ { id := "operational", name := "Operational", color := "#2f6fec" },
    { id := "technical", name := "Technical", color := "#17a2b8" },
    { id := "strategic", name := "Strategic", color := "#28a745" },
    { id := "hiring", name := "Hiring", color := "#6f42c1" },
    { id := "financial", name := "Financial", color := "#ffc107" },
    { id := "meeting", name := "Meeting", color := "#fd7e14" },
    { id := "interview", name := "Interview", color := "#e83e8c" } ]

/-- Embedding of `getTypeColor` (calendar component):
`this.types.find(t => t.id === typeId)?.color || '#2f6fec'`.  The `||`
falls back on a falsy (empty) color as well. -/
def getTypeColor (typeId : String) : String :=
  match types.find? (fun t => t.id = typeId) with
  | some t => if t.color.isEmpty then "#2f6fec" else t.color
  | none => "#2f6fec"

/-- Embedding of `getTypeName` (calendar component):
`this.types.find(t => t.id === typeId)?.name || 'Operational'`. -/
def getTypeName (typeId : String) : String :=
  match types.find? (fun t => t.id = typeId) with
  | some t => if t.name.isEmpty then "Operational" else t.name
  | none => "Operational"

/-- Embedding of `t.scheduleDate || t.dueDate || null` inside
`refreshCalendarFromStorage`: the first truthy date string, if any. -/
def effDateStr (t : Task) : Option String :=
  if ¬ t.scheduleDate.falsy then t.scheduleDate.toOpt
  else if ¬ t.dueDate.falsy then t.dueDate.toOpt
  else none

/-- The `CalendarTask` literal built inside `refreshCalendarFromStorage`:
`typeId` is `t.type ?? 'operational'` (nullish coalescing) and
`durationMinutes` is `t.estimatedTimeHours ? t.estimatedTimeHours * 60 : 15`
(so a `0`-hour estimate is falsy and also yields 15). -/
def mkCalendarTask (t : Task) (idx : Nat) : CalendarTask :=
  { id := t.id
    title := t.title
    dayIndex := idx
    typeId := t.type.getD "operational"
    durationMinutes :=
      match t.estimatedTimeHours with
      | some h => if h = 0 then 15 else h * 60
      | none => 15 }

/-- Per-task step of `refreshCalendarFromStorage`: parse the effective date,
check `d >= start && d < end` (with `end = start + 7` days), compute
`idx = Math.floor((d - start) / 86400000)` — in day units, `d - start` —
and keep the task only when `0 <= idx < 7`. -/
def projectTask (start : Int) (t : Task) : Option (Nat × CalendarTask) :=
  match effDateStr t with
  | none => none
  | some s =>
    match parseDateStr s with
    | none => none
    | some d =>
      if start ≤ d ∧ d < start + 7 then
        if (d - start).toNat < 7 then
          some ((d - start).toNat, mkCalendarTask t ((d - start).toNat))
        else none
      else none

/-- Embedding of `refreshCalendarFromStorage` (calendar component): reset the
seven day buckets, read the `kanbanBoard` blob (a parse failure is caught and
leaves the buckets empty), flatten all columns' tasks and push each projected
task into its bucket. -/
def refreshCalendarFromStorage (stored : Stored (List Column)) (weekStart : Int) :
    List (List CalendarTask) :=
  let empty := List.replicate 7 ([] : List CalendarTask)
  match stored with
  | .absent => empty
  | .malformed => empty
  | .val columns =>
    let all := columns.flatMap (·.tasks)
    all.foldl
      (fun buckets t =>
        match projectTask weekStart t with
        | some (idx, ct) => buckets.set idx (buckets.getD idx [] ++ [ct])
        | none => buckets)
      empty

/-- JavaScript `Date.prototype.getDay` on a local-midnight date: day of week
with Sunday = 0 (1970-01-01 was a Thursday, hence the offset 4). -/
def jsGetDay (z : Int) : Int := (z + 4) % 7

/-- Embedding of `getStartOfWeek` (calendar component): remap the weekday so
Monday = 0, step back that many days, then `setHours(0,0,0,0)`.  A date is a
day number plus a milliseconds-of-day component. -/
def getStartOfWeek (day : Int) (msOfDay : Nat) : Int × Nat :=
  let dow := (jsGetDay day + 6) % 7
  (day - dow, 0)

/-- The date rewrite applied to the matched task inside
`updateKanbanTaskDate`: prefer `scheduleDate` when the field is not
`undefined`, else `dueDate` when not `undefined`, else set `scheduleDate`. -/
def rewriteTaskDate (t : Task) (newISO : String) : Task :=
  if t.scheduleDate ≠ .undef then { t with scheduleDate := .str newISO }
  else if t.dueDate ≠ .undef then { t with dueDate := .str newISO }
  else { t with scheduleDate := .str newISO }

/-- Inner loop of `updateKanbanTaskDate` over one column's tasks: rewrite the
first task whose id matches (`break`), `none` when no task matches. -/
def updateTasksDate (calId newISO : String) : List Task → Option (List Task)
  | [] => none
  | t :: rest =>
    if t.id = calId then some (rewriteTaskDate t newISO :: rest)
    else (updateTasksDate calId newISO rest).map (t :: ·)

/-- Outer loop of `updateKanbanTaskDate` over the columns (`break outerLoop`
after the first match). -/
def updateColumnsDate (calId newISO : String) : List Column → Option (List Column)
  | [] => none
  | c :: rest =>
    match updateTasksDate calId newISO c.tasks with
    | some ts => some ({ c with tasks := ts } :: rest)
    | none => (updateColumnsDate calId newISO rest).map (c :: ·)

/-- Embedding of `updateKanbanTaskDate` (calendar component): read the
`kanbanBoard` blob (absent: warn and return; malformed: the parse exception
is caught), compute `weekStart + newDayIndex` days formatted `YYYY-MM-DD`,
rewrite the first matching task's date, and write the whole board back only
when a task was found. -/
def updateKanbanTaskDate (stored : Stored (List Column)) (weekStart : Int)
    (calendarTaskId : String) (newDayIndex : Nat) : Stored (List Column) :=
  match stored with
  | .absent => .absent
  | .malformed => .malformed
  | .val columns =>
    let newDateISO := formatDateISO (weekStart + (newDayIndex : Int))
    match updateColumnsDate calendarTaskId newDateISO columns with
    | some cols => .val cols
    | none => .val columns

/-- The persistence slice of `onDrop` (calendar component): after the list
manipulation, the dragged task's date is rewritten when the day changed —
the source compares `oldDayIndex !== targetDayIndex + 1` and passes
`targetDayIndex + 1` as the new day index to `updateKanbanTaskDate`. -/
def onDropDateUpdate (stored : Stored (List Column)) (weekStart : Int)
    (draggedTask : CalendarTask) (targetDayIndex : Nat) : Stored (List Column) :=
  if draggedTask.dayIndex ≠ targetDayIndex + 1 then
    updateKanbanTaskDate stored weekStart draggedTask.id (targetDayIndex + 1)
  else stored

/-- The ten seeded catalog entries (`taskTypes` member of `app.component.ts`). -/
def defaultTaskTypes : List TaskType :=
  [ { id := "operational", name := "Operational", color := "#2f6fec", enabled := true, forTasks := true, forEvents := false },
    { id := "technical", name := "Technical", color := "#17a2b8", enabled := true, forTasks := true, forEvents := false },
    { id := "strategic", name := "Strategic", color := "#28a745", enabled := true, forTasks := true, forEvents := false },
    { id := "hiring", name := "Hiring", color := "#6f42c1", enabled := true, forTasks := true, forEvents := false },
    { id := "financial", name := "Financial", color := "#ffc107", enabled := true, forTasks := true, forEvents := false },
    { id := "meeting", name := "Meeting", color := "#fd7e14", enabled := false, forTasks := false, forEvents := true },
    { id := "online-call", name := "Online call", color := "#6610f2", enabled := false, forTasks := false, forEvents := true },
    { id := "interview", name := "Interview", color := "#e83e8c", enabled := false, forTasks := false, forEvents := true },
    { id := "type1", name := "Type 1", color := "#fd7e14", enabled := false, forTasks := false, forEvents := true },
    { id := "type2", name := "Type 2", color := "#20c997", enabled := false, forTasks := false, forEvents := true } ]

/-- The id looked up by `getTaskTypeColor`/`getTaskTypeName`:
`task.type || 'operational'` (falsy, so an empty-string type also falls back). -/
def resolvedTypeId (task : Task) : String :=
  match task.type with
  | some s => if s.isEmpty then "operational" else s
  | none => "operational"

/-- Embedding of `getTaskTypeColor` (app component): find the entry whose id
is `task.type || 'operational'`; `'#2f6fec'` when the find fails. -/
def getTaskTypeColor (taskTypes : List TaskType) (task : Task) : String :=
  match taskTypes.find? (fun t => t.id = resolvedTypeId task) with
  | some taskType => taskType.color
  | none => "#2f6fec"

/-- Embedding of `getTaskTypeName` (app component). -/
def getTaskTypeName (taskTypes : List TaskType) (task : Task) : String :=
  match taskTypes.find? (fun t => t.id = resolvedTypeId task) with
  | some taskType => taskType.name
  | none => "Operational"

/-- Embedding of `toggleTypeForTasks` (app component): flip `forTasks`; when
the flag became true, force `enabled := true`. -/
def toggleTypeForTasks (ty : TaskType) : TaskType :=
  let ty2 := { ty with forTasks := ! ty.forTasks }
  if ty2.forTasks then { ty2 with enabled := true } else ty2

/-- Embedding of `toggleTypeForEvents` (app component): flip `forEvents`. -/
def toggleTypeForEvents (ty : TaskType) : TaskType :=
  { ty with forEvents := ! ty.forEvents }

/-- Embedding of `loadTaskTypes` (app component): the `JSON.parse` of the
`taskTypes` blob sits in a `try`/`catch`; on error the current (default)
catalog is kept, as it is when the key is absent. -/
def loadTaskTypes (stored : Stored (List TaskType)) (current : List TaskType) :
    List TaskType :=
  match stored with
  | .absent => current
  | .malformed => current
  | .val ts => ts

/-- Embedding of `loadFromLocalStorage` (app component): `JSON.parse` of the
`kanbanBoard` blob is NOT wrapped in `try`/`catch` in the source, so a
malformed blob makes the parse exception escape to the caller (`.error`);
the in-memory columns are then left as previously initialized. -/
def loadFromLocalStorage (stored : Stored (List Column)) (current : List Column) :
    Except Unit (List Column) :=
  match stored with
  | .absent => .ok current
  | .malformed => .error ()
  | .val board => .ok board

/-- Embedding of Angular CDK `moveItemInArray`: both indices are clamped to
`[0, length - 1]` (`clamp(value, max) = Math.max(0, Math.min(max, value))`),
and the element is removed at `from` and reinserted at `to`. -/
def moveItemInArray {α : Type} (l : List α) (fromIndex toIndex : Nat) : List α :=
  if min fromIndex (l.length - 1) = min toIndex (l.length - 1) then l
  else
    match l[min fromIndex (l.length - 1)]? with
    | some x =>
      (l.eraseIdx (min fromIndex (l.length - 1))).insertIdx (min toIndex (l.length - 1)) x
    | none => l

/-- Embedding of Angular CDK `transferArrayItem`: the source index is clamped
to `[0, length A - 1]`, the target index to `[0, length B]`; nothing happens
when the source list is empty. -/
def transferArrayItem {α : Type} (a b : List α) (currentIndex targetIndex : Nat) :
    List α × List α :=
  if a.length = 0 then (a, b)
  else
    match a[min currentIndex (a.length - 1)]? with
    | some x =>
      (a.eraseIdx (min currentIndex (a.length - 1)), b.insertIdx (min targetIndex b.length) x)
    | none => (a, b)

/-- Embedding of `drop` (app component): a same-container event reorders one
column's task list with `moveItemInArray`, a cross-container event moves one
task with `transferArrayItem`; the whole board is then persisted.  Containers
are addressed by their position in the board. -/
def drop (cols : List (List Task)) (prevContainer container : Nat)
    (previousIndex currentIndex : Nat) : List (List Task) :=
  if prevContainer = container then
    match cols[container]? with
    | some l => cols.set container (moveItemInArray l previousIndex currentIndex)
    | none => cols
  else
    match cols[prevContainer]?, cols[container]? with
    | some a, some b =>
      (cols.set prevContainer (transferArrayItem a b previousIndex currentIndex).1).set
        container (transferArrayItem a b previousIndex currentIndex).2
    | _, _ => cols

/-- A board drag-drop event: source and target containers and indices. -/
structure DropEv where
  prev : Nat
  cur : Nat
  fromIdx : Nat
  toIdx : Nat
deriving DecidableEq

/-- Apply one drag-drop event to the board. -/
def applyDrop (cols : List (List Task)) (e : DropEv) : List (List Task) :=
  drop cols e.prev e.cur e.fromIdx e.toIdx

/-- Apply a sequence of drag-drop events to the board. -/
def applyDrops (cols : List (List Task)) (es : List DropEv) : List (List Task) :=
  es.foldl applyDrop cols

/-- The multiset of all tasks on the board. -/
def boardTasks (cols : List (List Task)) : Multiset Task :=
  (cols.map (fun l => (l : Multiset Task))).sum

/-- The field bundle `saveTask` commits (`this.taskForm.value`). -/
structure TaskPatch where
  title : String
  description : String
  priority : String
  dueDate : JStr
  assignee : Option String
  estimatedTimeHours : Option Nat
  scheduleDate : JStr
  type : Option String
deriving DecidableEq

/-- The `Object.assign(this.editingTask, {...})` of `saveTask`: overwrite
every committed field, keep the id. -/
def applyPatch (t : Task) (p : TaskPatch) : Task :=
  { t with
    title := p.title
    description := p.description
    priority := p.priority
    dueDate := p.dueDate
    assignee := p.assignee
    estimatedTimeHours := p.estimatedTimeHours
    scheduleDate := p.scheduleDate
    type := p.type }

/-- The `Object.assign` pass of `saveTask` over the whole board: every task
whose id is the edited id gets the committed fields (JavaScript mutates the
single referenced object; on boards where the id occurs once this is the
same map). -/
def patchTasks (editingTaskId : String) (p : TaskPatch) (cols : List Column) : List Column :=
  cols.map (fun c =>
    { c with tasks := c.tasks.map (fun t =>
        if t.id = editingTaskId then applyPatch t p else t) })

/-- The destination-column resolution of `saveTask`:
`columns.find(c => c.id === destinationColumnId)` with fallback `columns[0]`. -/
def destinationColumnOf (cols : List Column) (destinationColumnId : Option String) :
    Option Column :=
  match (match destinationColumnId with
         | some d => cols.find? (fun c => c.id = d)
         | none => none) with
  | some c => some c
  | none => cols.head?

/-- The original-column lookup of `saveTask`:
`columns.find(c => c.tasks.includes(editingTask))`, by id. -/
def originalColumnOf (cols : List Column) (editingTaskId : String) : Option Column :=
  cols.find? (fun c => c.tasks.any (fun t => t.id = editingTaskId))

/-- Embedding of the editing branch of `saveTask` (app component).  The
task's fields are mutated in place; when the resolved destination column
differs from the column currently owning the task, the task is spliced out of
the original column and pushed at the tail of the destination.  JavaScript
identifies the edited task and the columns by object reference; the embedding
identifies them by id, which coincides with reference identity on boards
whose edited task occurs once and whose column ids are distinct (the
hypotheses of the theorem below). -/
def saveTask (cols : List Column) (editingTaskId : String)
    (destinationColumnId : Option String) (p : TaskPatch) : List Column :=
  match originalColumnOf cols editingTaskId,
        destinationColumnOf cols destinationColumnId with
  | some oc, some dc =>
    if dc.id ≠ oc.id then
      match oc.tasks.find? (fun t => t.id = editingTaskId) with
      | some t0 =>
        (patchTasks editingTaskId p cols).map (fun c =>
          if c.id = oc.id then
            { c with tasks := c.tasks.filter (fun t => t.id ≠ editingTaskId) }
          else if c.id = dc.id then { c with tasks := c.tasks ++ [applyPatch t0 p] }
          else c)
      | none => patchTasks editingTaskId p cols
    else patchTasks editingTaskId p cols
  | _, _ => patchTasks editingTaskId p cols

/-- Embedding of `initializeBoard` (app component): the four default columns. -/
def initializeBoard : List Column :=
  [ { id := "new", title := "New task", tasks := [] },
    { id := "scheduled", title := "Scheduled", tasks := [] },
    { id := "inprogress", title := "In Progress", tasks := [] },
    { id := "completed", title := "Completed", tasks := [] } ]

/-- Monday 2024-06-03 as a day number (the `weekStart` of the spec scenarios). -/
def week0 : Int := daysFromCivil 2024 6 3

/-- The scenario task: `dueDate = "2024-06-03"`, no `scheduleDate`, no
`estimatedTimeHours`. -/
def sampleTask : Task := { id := "t1", title := "T", dueDate := .str "2024-06-03" }

/-- A one-column board holding only `sampleTask`. -/
def sampleBoard : List Column := [ { id := "new", title := "New task", tasks := [sampleTask] } ]

/-- A task carrying an explicit zero-hour estimate. -/
def zeroEstTask : Task :=
  { id := "t0", title := "Z", dueDate := .str "2024-06-03", estimatedTimeHours := some 0 }

/-- A task carrying a two-hour estimate. -/
def twoHourTask : Task :=
  { id := "t2", title := "H", dueDate := .str "2024-06-04", estimatedTimeHours := some 2 }

/-- The contents the claim predicts for day bucket `i`: the tasks, in board
order, whose projection lands at index `i`. -/
def bucketSpec (start : Int) (i : Nat) (tasks : List Task) : List CalendarTask :=
  tasks.filterMap (fun t =>
    match projectTask start t with
    | some (j, ct) => if j = i then some ct else none
    | none => none)

/-- A concrete committed field bundle. -/
def samplePatch : TaskPatch :=
  { title := "T renamed", description := "updated", priority := "high",
    dueDate := .str "2024-06-10", assignee := some "Ana", estimatedTimeHours := some 1,
    scheduleDate := .undef, type := some "technical" }

/-- A two-column board: the scenario task in `new`, another task in
`completed`. -/
def twoColBoard : List Column :=
  [ { id := "new", title := "New task", tasks := [sampleTask] },
    { id := "completed", title := "Completed", tasks := [twoHourTask] } ]

/-- C10: the week-start computation normalizes: for every date (day number
plus time of day), `getStartOfWeek` returns a Monday (`getDay = 1`) at local
midnight, no later than the given date and at most six days before it, and it
is idempotent. -/
theorem getStartOfWeek_monday_midnight_idempotent (day : Int) (msOfDay : Nat) :
    jsGetDay (getStartOfWeek day msOfDay).1 = 1 ∧
    (getStartOfWeek day msOfDay).2 = 0 ∧
    (getStartOfWeek day msOfDay).1 ≤ day ∧
    day - (getStartOfWeek day msOfDay).1 ≤ 6 ∧
    getStartOfWeek (getStartOfWeek day msOfDay).1 (getStartOfWeek day msOfDay).2 =
      getStartOfWeek day msOfDay := by
  have h : ∀ (d : Int) (ms : Nat), getStartOfWeek d ms = (d - ((d + 4) % 7 + 6) % 7, 0) := by
    intro d ms
    rfl
  simp [h, jsGetDay, Prod.ext_iff]
  refine ⟨?_, ?_, ?_, ?_⟩ <;> omega

/-- C7: toggling `forTasks` from off to on forces `enabled := true`; toggling
it from on to off leaves `enabled` untouched, and `toggleTypeForEvents`
never changes `enabled` (nor `forTasks`). -/
theorem toggleTypeForTasks_couples_enabled (ty : TaskType) :
    (ty.forTasks = false →
      (toggleTypeForTasks ty).forTasks = true ∧ (toggleTypeForTasks ty).enabled = true) ∧
    (ty.forTasks = true →
      (toggleTypeForTasks ty).enabled = ty.enabled ∧ (toggleTypeForTasks ty).forTasks = false) ∧
    (toggleTypeForEvents ty).enabled = ty.enabled ∧
    (toggleTypeForEvents ty).forTasks = ty.forTasks := by
  unfold toggleTypeForTasks toggleTypeForEvents
  cases h : ty.forTasks <;> simp [h]

/-- C7 witness: the seeded `meeting` entry (forTasks off) gets `enabled` on
toggle; the seeded `operational` entry (forTasks on) keeps `enabled` when
toggled off. -/
theorem toggleTypeForTasks_couples_enabled_witness :
    (toggleTypeForTasks
      { id := "meeting", name := "Meeting", color := "#fd7e14",
        enabled := false, forTasks := false, forEvents := true }).enabled = true ∧
    (toggleTypeForTasks
      { id := "operational", name := "Operational", color := "#2f6fec",
        enabled := true, forTasks := true, forEvents := false }).enabled = true := by
  constructor
  · exact ((toggleTypeForTasks_couples_enabled _).1 rfl).2
  · exact ((toggleTypeForTasks_couples_enabled _).2.1 rfl).1

/-- Helper: in a list whose projected ids are distinct, `find?` by an
element's id returns that element. -/
lemma find_id_eq_of_mem_nodup {α : Type} (f : α → String) (l : List α) (a : α)
    (ha : a ∈ l) (hnd : (l.map f).Nodup) : l.find? (fun x => f x = f a) = some a := by
  induction l with
  | nil => cases ha
  | cons b t ih =>
    simp only [List.map_cons, List.nodup_cons] at hnd
    rcases List.mem_cons.mp ha with rfl | hat
    · simp
    · have hne : f b ≠ f a := fun he => hnd.1 (he ▸ List.mem_map_of_mem f hat)
      rw [List.find?_cons_of_neg _ (by simp [hne])]
      exact ih hat hnd.2

/-- C5: task-type lookup never fails.  For an unknown or absent type id the
app-side color/name resolvers return the fixed default (`#2f6fec`,
`Operational`) — an absent type resolves through the seeded catalog's
`operational` entry, which carries exactly those values — and for an id
present in a duplicate-free catalog they return exactly the matching entry.
The calendar-side `getTypeColor`/`getTypeName` behave the same over the
hardcoded `types` catalog. -/
theorem taskType_resolve_total :
    (∀ (taskTypes : List TaskType) (task : Task),
      (∀ tt ∈ taskTypes, tt.id ≠ resolvedTypeId task) →
      getTaskTypeColor taskTypes task = "#2f6fec" ∧ getTaskTypeName taskTypes task = "Operational") ∧
    (∀ task : Task, task.type = none →
      getTaskTypeColor defaultTaskTypes task = "#2f6fec" ∧
      getTaskTypeName defaultTaskTypes task = "Operational") ∧
    (∀ (taskTypes : List TaskType) (task : Task) (tt : TaskType),
      tt ∈ taskTypes → (taskTypes.map TaskType.id).Nodup → task.type = some tt.id →
      tt.id.isEmpty = false →
      getTaskTypeColor taskTypes task = tt.color ∧ getTaskTypeName taskTypes task = tt.name) ∧
    (∀ typeId : String, (∀ ct ∈ types, ct.id ≠ typeId) →
      getTypeColor typeId = "#2f6fec" ∧ getTypeName typeId = "Operational") ∧
    (∀ ct ∈ types, getTypeColor ct.id = ct.color ∧ getTypeName ct.id = ct.name) := by
  refine ⟨?_, ?_, ?_, ?_, ?_⟩
  · intro taskTypes task h
    have hf : taskTypes.find? (fun t => t.id = resolvedTypeId task) = none := by
      simp only [List.find?_eq_none, decide_eq_true_eq]
      exact h
    constructor <;> simp [getTaskTypeColor, getTaskTypeName, hf]
  · intro task h
    have hr : resolvedTypeId task = "operational" := by simp [resolvedTypeId, h]
    constructor <;> · simp only [getTaskTypeColor, getTaskTypeName, hr]; decide
  · intro taskTypes task tt hmem hnd htype hempty
    have hr : resolvedTypeId task = tt.id := by simp [resolvedTypeId, htype, hempty]
    have hf := find_id_eq_of_mem_nodup TaskType.id taskTypes tt hmem hnd
    constructor <;> simp [getTaskTypeColor, getTaskTypeName, hr, hf]
  · intro typeId h
    have hf : types.find? (fun t => t.id = typeId) = none := by
      simp only [List.find?_eq_none, decide_eq_true_eq]
      exact h
    constructor <;> simp [getTypeColor, getTypeName, hf]
  · decide

/-- C5 witness: concrete resolutions through the seeded catalogs. -/
theorem taskType_resolve_total_witness :
    getTaskTypeColor defaultTaskTypes { id := "x", type := some "mystery" } = "#2f6fec" ∧
    getTaskTypeName defaultTaskTypes sampleTask = "Operational" ∧
    getTaskTypeColor defaultTaskTypes { id := "y", type := some "technical" } = "#17a2b8" ∧
    getTypeColor "mystery" = "#2f6fec" ∧
    getTypeColor "hiring" = "#6f42c1" := by
  refine ⟨?_, ?_, ?_, ?_, ?_⟩
  · exact (taskType_resolve_total.1 defaultTaskTypes _ (by decide)).1
  · exact (taskType_resolve_total.2.1 sampleTask rfl).2
  · exact (taskType_resolve_total.2.2.1 defaultTaskTypes _
      { id := "technical", name := "Technical", color := "#17a2b8",
        enabled := true, forTasks := true, forEvents := false }
      (by decide) (by decide) rfl rfl).1
  · exact (taskType_resolve_total.2.2.2.1 "mystery" (by decide)).1
  · exact (taskType_resolve_total.2.2.2.2
      { id := "hiring", name := "Hiring", color := "#6f42c1" } (by decide)).1

/-- C6 counterexample: loading a malformed `kanbanBoard` blob through
`loadFromLocalStorage` raises the `JSON.parse` exception to the caller
(the source has no `try`/`catch` there), refuting the claim that no load of
persisted state raises an error. -/
theorem loadFromLocalStorage_malformed_raises :
    loadFromLocalStorage .malformed initializeBoard = .error () := rfl

/-- C6 (amended): a malformed catalog blob is caught and the current
(default) catalog kept; a malformed board blob read by the calendar
projection is caught and yields empty day buckets; but `loadFromLocalStorage`
does not catch, so a malformed board blob propagates the parse error to the
caller (the in-memory board is then left as previously initialized). -/
theorem malformed_blob_handling (curTypes : List TaskType) (curCols : List Column) (ws : Int) :
    loadTaskTypes .malformed curTypes = curTypes ∧
    refreshCalendarFromStorage .malformed ws = List.replicate 7 [] ∧
    loadFromLocalStorage .malformed curCols = .error () :=
  ⟨rfl, rfl, rfl⟩

/-- Helper: the write-back task scan fails when no task id matches. -/
lemma updateTasksDate_eq_none (calId newISO : String) (ts : List Task)
    (h : ∀ t ∈ ts, t.id ≠ calId) : updateTasksDate calId newISO ts = none := by
  induction ts with
  | nil => rfl
  | cons t rest ih =>
    unfold updateTasksDate
    rw [if_neg (h t (List.mem_cons_self t rest)), ih (fun x hx => h x (List.mem_cons_of_mem t hx))]
    rfl

/-- Helper: the write-back column scan fails when no task id matches. -/
lemma updateColumnsDate_eq_none (calId newISO : String) (cols : List Column)
    (h : ∀ c ∈ cols, ∀ t ∈ c.tasks, t.id ≠ calId) :
    updateColumnsDate calId newISO cols = none := by
  induction cols with
  | nil => rfl
  | cons c rest ih =>
    unfold updateColumnsDate
    rw [updateTasksDate_eq_none calId newISO c.tasks (h c (List.mem_cons_self c rest)),
      ih (fun x hx => h x (List.mem_cons_of_mem c hx))]
    rfl

/-- C9: the calendar write-back is atomic with respect to failure: when the
dragged CalendarTask's id matches no task on the stored board, the persisted
board blob is left completely unchanged (`localStorage.setItem` runs only
when a matching task was found). -/
theorem updateKanbanTaskDate_unmatched_no_write (cols : List Column) (ws : Int)
    (calId : String) (ndi : Nat)
    (h : ∀ c ∈ cols, ∀ t ∈ c.tasks, t.id ≠ calId) :
    updateKanbanTaskDate (.val cols) ws calId ndi = .val cols := by
  have hstep : updateKanbanTaskDate (.val cols) ws calId ndi =
      match updateColumnsDate calId (formatDateISO (ws + (ndi : Int))) cols with
      | some cols2 => .val cols2
      | none => .val cols := rfl
  rw [hstep, updateColumnsDate_eq_none calId (formatDateISO (ws + (ndi : Int))) cols h]

/-- C9 witness: a drag whose id matches nothing leaves the sample board
blob unchanged. -/
theorem updateKanbanTaskDate_unmatched_no_write_witness :
    updateKanbanTaskDate (.val sampleBoard) week0 "ghost" 3 = .val sampleBoard :=
  updateKanbanTaskDate_unmatched_no_write sampleBoard week0 "ghost" 3 (by decide)

/-- C1: evaluation of the drop flow at the spec scenario.  The week starts
Monday 2024-06-03; the task with `dueDate = "2024-06-03"` and no
`scheduleDate` projects to day index 0; dropping it on the day-2 container
makes `onDrop` call `updateKanbanTaskDate` with `targetDayIndex + 1 = 3`, so
the board is persisted with `dueDate = "2024-06-06"` — one day past the
`weekStart + 2 = "2024-06-05"` the claim (and the function's own debug
logging) promises. -/
theorem onDrop_dayShift_scenario :
    parseDateStr "2024-06-03" = some week0 ∧
    jsGetDay week0 = 1 ∧
    refreshCalendarFromStorage (.val sampleBoard) week0 =
      [[mkCalendarTask sampleTask 0], [], [], [], [], [], []] ∧
    (mkCalendarTask sampleTask 0).dayIndex = 0 ∧
    onDropDateUpdate (.val sampleBoard) week0 (mkCalendarTask sampleTask 0) 2 =
      .val [ { id := "new", title := "New task",
               tasks := [{ sampleTask with dueDate := .str "2024-06-06" }] } ] ∧
    formatDateISO (week0 + 2) = "2024-06-05" := by decide

/-- C8 counterexample: a task carrying the explicit estimate `0` hours (the
value the task form stores by default) is included in the projection with
`durationMinutes = 15`, not `0 * 60`: the source's
`t.estimatedTimeHours ? t.estimatedTimeHours * 60 : 15` treats `0` as falsy. -/
theorem projection_duration_zero_estimate :
    projectTask week0 zeroEstTask = some (0, mkCalendarTask zeroEstTask 0) ∧
    zeroEstTask.estimatedTimeHours = some 0 ∧
    (mkCalendarTask zeroEstTask 0).durationMinutes = 15 ∧
    ¬ (mkCalendarTask zeroEstTask 0).durationMinutes = 0 * 60 := by decide

/-- Helper: a projected task's CalendarTask is `mkCalendarTask` at its
bucket index, and the index is below 7. -/
lemma projectTask_eq (start : Int) (t : Task) (idx : Nat) (ct : CalendarTask)
    (h : projectTask start t = some (idx, ct)) : ct = mkCalendarTask t idx ∧ idx < 7 := by
  unfold projectTask at h
  split at h
  · cases h
  · split at h
    · cases h
    · split at h
      · split at h
        · simp only [Option.some.injEq, Prod.mk.injEq] at h
          obtain ⟨h1, h2⟩ := h
          subst h1
          subst h2
          exact ⟨rfl, by assumption⟩
        · cases h
      · cases h

/-- C8 (amended): for every task included in the calendar projection,
`durationMinutes` is the estimate times 60 when the estimate is present and
nonzero, and 15 when the estimate is absent or zero. -/
theorem projection_duration (start : Int) (t : Task) (idx : Nat) (ct : CalendarTask)
    (h : projectTask start t = some (idx, ct)) :
    (t.estimatedTimeHours = none ∨ t.estimatedTimeHours = some 0 → ct.durationMinutes = 15) ∧
    (∀ hrs : Nat, t.estimatedTimeHours = some hrs → hrs ≠ 0 →
      ct.durationMinutes = hrs * 60) := by
  obtain ⟨hct, -⟩ := projectTask_eq start t idx ct h
  subst hct
  constructor
  · rintro (h0 | h0) <;> simp [mkCalendarTask, h0]
  · intro hrs h0 hne
    simp [mkCalendarTask, h0, hne]

/-- C8 witness: a two-hour estimate projects to 120 minutes; the scenario
task without an estimate projects to 15 minutes. -/
theorem projection_duration_witness :
    projectTask week0 twoHourTask = some (1, mkCalendarTask twoHourTask 1) ∧
    (mkCalendarTask twoHourTask 1).durationMinutes = 120 ∧
    projectTask week0 sampleTask = some (0, mkCalendarTask sampleTask 0) ∧
    (mkCalendarTask sampleTask 0).durationMinutes = 15 := by
  refine ⟨by decide, ?_, by decide, ?_⟩
  · exact (projection_duration week0 twoHourTask 1 (mkCalendarTask twoHourTask 1)
      (by decide)).2 2 rfl (by decide)
  · exact (projection_duration week0 sampleTask 0 (mkCalendarTask sampleTask 0)
      (by decide)).1 (Or.inl rfl)

/-- Helper: `bucketSpec` unfolded over a cons. -/
lemma bucketSpec_cons (start : Int) (i : Nat) (t : Task) (rest : List Task) :
    bucketSpec start i (t :: rest) =
      (match projectTask start t with
       | some (j, ct) => if j = i then [ct] else []
       | none => []) ++ bucketSpec start i rest := by
  unfold bucketSpec
  rw [List.filterMap_cons]
  cases hp : projectTask start t with
  | none => simp
  | some p =>
    obtain ⟨j, ct⟩ := p
    by_cases h : j = i <;> simp [h]

/-- Helper: the bucket-pushing fold of `refreshCalendarFromStorage`
appends, bucket by bucket, exactly the projected tasks. -/
lemma refresh_foldl_getD (start : Int) (ts : List Task) (acc : List (List CalendarTask))
    (hacc : acc.length = 7) (i : Nat) (hi : i < 7) :
    (ts.foldl (fun buckets t =>
        match projectTask start t with
        | some (idx, ct) => buckets.set idx (buckets.getD idx [] ++ [ct])
        | none => buckets) acc).getD i []
      = acc.getD i [] ++ bucketSpec start i ts := by
  induction ts generalizing acc with
  | nil => simp [bucketSpec]
  | cons t rest ih =>
    rw [List.foldl_cons, bucketSpec_cons]
    cases hp : projectTask start t with
    | none =>
      simp only [hp]
      rw [ih acc hacc, List.nil_append]
    | some p =>
      obtain ⟨j, ct⟩ := p
      obtain ⟨-, hj7⟩ := projectTask_eq start t j ct hp
      simp only [hp]
      rw [ih (acc.set j (acc.getD j [] ++ [ct])) (by rw [List.length_set, hacc])]
      by_cases hji : j = i
      · subst hji
        rw [List.getD_eq_getElem?_getD, List.getElem?_set_self (by rw [hacc]; exact hj7)]
        simp [List.getD_eq_getElem?_getD, List.append_assoc]
      · rw [List.getD_eq_getElem?_getD, List.getElem?_set_ne hji, ← List.getD_eq_getElem?_getD]
        simp [hji]

/-- C2: the calendar projection buckets each board task by its effective
date (`scheduleDate` preferred, else `dueDate`): bucket `i` holds exactly the
tasks whose parsed effective date `d` gives index `d - weekStart = i` (the
day-unit value of `floor((d - weekStart) / oneDay)`), tasks are kept exactly
when that index is in `[0, 7)`, tasks with an unparseable or missing
effective date are excluded, a task dated exactly `weekStart` lands at index
0, and a task dated `weekStart + 7` days is excluded. -/
theorem calendar_projection_buckets (cols : List Column) (start : Int) (i : Nat)
    (hi : i < 7) :
    (refreshCalendarFromStorage (.val cols) start).getD i []
        = bucketSpec start i (cols.flatMap (fun c => c.tasks)) ∧
    (∀ (t : Task) (d : Int), (effDateStr t).bind parseDateStr = some d →
      start ≤ d → d < start + 7 →
      projectTask start t = some ((d - start).toNat, mkCalendarTask t ((d - start).toNat))) ∧
    (∀ (t : Task) (d : Int), (effDateStr t).bind parseDateStr = some d →
      (d < start ∨ start + 7 ≤ d) → projectTask start t = none) ∧
    (∀ t : Task, (effDateStr t).bind parseDateStr = none → projectTask start t = none) ∧
    (∀ t : Task, (effDateStr t).bind parseDateStr = some start →
      projectTask start t = some (0, mkCalendarTask t 0)) ∧
    (∀ t : Task, (effDateStr t).bind parseDateStr = some (start + 7) →
      projectTask start t = none) := by
  have hproj : ∀ (t : Task) (d : Int), (effDateStr t).bind parseDateStr = some d →
      projectTask start t =
        (if start ≤ d ∧ d < start + 7 then
          if (d - start).toNat < 7 then
            some ((d - start).toNat, mkCalendarTask t ((d - start).toNat))
          else none
        else none) := by
    intro t d hd
    cases he : effDateStr t with
    | none => rw [he] at hd; cases hd
    | some s =>
      rw [he, Option.some_bind] at hd
      unfold projectTask
      rw [he]
      dsimp only
      rw [hd]
  have hnone : ∀ t : Task, (effDateStr t).bind parseDateStr = none →
      projectTask start t = none := by
    intro t hd
    cases he : effDateStr t with
    | none => unfold projectTask; rw [he]
    | some s =>
      rw [he, Option.some_bind] at hd
      unfold projectTask
      rw [he]
      dsimp only
      rw [hd]
  refine ⟨?_, ?_, ?_, hnone, ?_, ?_⟩
  · have hrefresh : refreshCalendarFromStorage (.val cols) start =
        (cols.flatMap (fun c => c.tasks)).foldl (fun buckets t =>
          match projectTask start t with
          | some (idx, ct) => buckets.set idx (buckets.getD idx [] ++ [ct])
          | none => buckets) (List.replicate 7 []) := rfl
    rw [hrefresh, refresh_foldl_getD start _ _ (by simp) i hi]
    simp [List.getD_eq_getElem?_getD, List.getElem?_replicate, hi]
    interval_cases i <;> rfl
  · intro t d hd hle hlt
    rw [hproj t d hd, if_pos ⟨hle, hlt⟩, if_pos (by omega)]
  · intro t d hd hout
    rw [hproj t d hd, if_neg (by omega)]
  · intro t hd
    have := hproj t start hd
    rw [this, if_pos ⟨le_refl start, by omega⟩, if_pos (by omega)]
    simp
  · intro t hd
    rw [hproj t (start + 7) hd, if_neg (by omega)]

/-- C2 witness: on the sample board the day-0 bucket is the predicted
bucket and holds exactly the scenario task. -/
theorem calendar_projection_buckets_witness :
    (0 : Nat) < 7 ∧
    ((refreshCalendarFromStorage (.val sampleBoard) week0).getD 0 []
        = bucketSpec week0 0 (sampleBoard.flatMap (fun c => c.tasks)) ∧
      (refreshCalendarFromStorage (.val sampleBoard) week0).getD 0 []
        = [mkCalendarTask sampleTask 0]) := by
  refine ⟨by decide, (calendar_projection_buckets sampleBoard week0 0 (by decide)).1, by decide⟩

/-- Helper: inserting within bounds is a permutation of consing. -/
lemma insertIdx_perm {α : Type} (x : α) :
    ∀ (j : Nat) (l : List α), j ≤ l.length → (l.insertIdx j x).Perm (x :: l)
  | 0, l, _ => by rw [List.insertIdx_zero]
  | j + 1, [], h => absurd h (Nat.not_succ_le_zero j)
  | j + 1, a :: t, h => by
    rw [List.insertIdx_succ_cons]
    exact ((insertIdx_perm x j t (Nat.le_of_succ_le_succ h)).cons a).trans (List.Perm.swap x a t)

/-- Helper: a list is a permutation of the erased element consed on the
erasure. -/
lemma eraseIdx_perm {α : Type} :
    ∀ (l : List α) (i : Nat) (x : α), l[i]? = some x → l.Perm (x :: l.eraseIdx i)
  | [], i, x, h => by cases h
  | a :: t, 0, x, h => by
    obtain rfl : a = x := by simpa using h
    exact List.Perm.refl _
  | a :: t, i + 1, x, h => by
    have ht : t[i]? = some x := by simpa using h
    rw [List.eraseIdx_cons_succ]
    exact ((eraseIdx_perm t i x ht).cons a).trans (List.Perm.swap x a _)

/-- Helper: a same-list move permutes the list. -/
lemma moveItemInArray_perm {α : Type} (l : List α) (i j : Nat) :
    (moveItemInArray l i j).Perm l := by
  unfold moveItemInArray
  split
  · exact List.Perm.refl l
  · cases hget : l[min i (l.length - 1)]? with
    | none =>
      simp only [hget]
      exact List.Perm.refl l
    | some x =>
      simp only [hget]
      obtain ⟨hlt, -⟩ := List.getElem?_eq_some.mp hget
      have hj : min j (l.length - 1) ≤ (l.eraseIdx (min i (l.length - 1))).length := by
        rw [List.length_eraseIdx, if_pos hlt]
        exact Nat.min_le_right j (l.length - 1)
      exact (insertIdx_perm x _ _ hj).trans (eraseIdx_perm l _ x hget).symm

/-- Helper: a cross-list transfer preserves the combined multiset. -/
lemma transferArrayItem_ms {α : Type} (a b : List α) (i j : Nat) :
    ((transferArrayItem a b i j).1 : Multiset α) + ((transferArrayItem a b i j).2 : Multiset α)
      = (a : Multiset α) + (b : Multiset α) := by
  unfold transferArrayItem
  split
  · rfl
  · cases hget : a[min i (a.length - 1)]? with
    | none => simp only [hget]
    | some x =>
      simp only [hget]
      have hb : min j b.length ≤ b.length := Nat.min_le_right j b.length
      have h1 : ((b.insertIdx (min j b.length) x : List α) : Multiset α) = ↑(x :: b) :=
        Multiset.coe_eq_coe.mpr (insertIdx_perm x _ b hb)
      have h2 : (a : Multiset α) = ↑(x :: a.eraseIdx (min i (a.length - 1))) :=
        Multiset.coe_eq_coe.mpr (eraseIdx_perm a _ x hget)
      rw [h1, h2]
      simp only [← Multiset.cons_coe, Multiset.add_cons, Multiset.cons_add]

/-- Helper: `boardTasks` over a cons. -/
lemma boardTasks_cons (l : List Task) (t : List (List Task)) :
    boardTasks (l :: t) = (l : Multiset Task) + boardTasks t := by
  simp [boardTasks]

/-- Helper: replacing one column changes `boardTasks` by exactly the
exchanged column contents. -/
lemma boardTasks_set :
    ∀ (cols : List (List Task)) (i : Nat) (l : List Task), cols[i]? = some l →
    ∀ l' : List Task,
      boardTasks (cols.set i l') + (l : Multiset Task)
        = boardTasks cols + (l' : Multiset Task)
  | [], i, l, h, l' => by cases h
  | a :: t, 0, l, h, l' => by
    obtain rfl : a = l := by simpa using h
    rw [List.set_cons_zero, boardTasks_cons, boardTasks_cons]
    abel
  | a :: t, i + 1, l, h, l' => by
    have ht : t[i]? = some l := by simpa using h
    have ih := boardTasks_set t i l ht l'
    rw [List.set_cons_succ, boardTasks_cons, boardTasks_cons, add_assoc, add_assoc, ih]

/-- Helper: one `drop` event preserves the multiset of board tasks. -/
lemma drop_boardTasks (cols : List (List Task)) (prev cur pi2 ci : Nat) :
    boardTasks (drop cols prev cur pi2 ci) = boardTasks cols := by
  unfold drop
  split
  · cases hget : cols[cur]? with
    | none => simp only [hget]
    | some l =>
      simp only [hget]
      have hm : ((moveItemInArray l pi2 ci : List Task) : Multiset Task) = (l : Multiset Task) :=
        Multiset.coe_eq_coe.mpr (moveItemInArray_perm l pi2 ci)
      have hset := boardTasks_set cols cur l hget (moveItemInArray l pi2 ci)
      rw [hm] at hset
      exact add_right_cancel hset
  · rename_i hne
    cases hp : cols[prev]? with
    | none => simp only [hp]
    | some a =>
      cases hc : cols[cur]? with
      | none => simp only [hp, hc]
      | some b =>
        simp only [hp, hc]
        have h1 := boardTasks_set cols prev a hp (transferArrayItem a b pi2 ci).1
        have hc1 : (cols.set prev (transferArrayItem a b pi2 ci).1)[cur]? = some b := by
          rw [List.getElem?_set_ne hne, hc]
        have h2 := boardTasks_set (cols.set prev (transferArrayItem a b pi2 ci).1) cur b hc1
          (transferArrayItem a b pi2 ci).2
        have htr := transferArrayItem_ms a b pi2 ci
        have key :
            boardTasks ((cols.set prev (transferArrayItem a b pi2 ci).1).set cur
                (transferArrayItem a b pi2 ci).2)
              + ((b : Multiset Task) + (a : Multiset Task))
            = boardTasks cols + ((b : Multiset Task) + (a : Multiset Task)) := by
          calc boardTasks ((cols.set prev (transferArrayItem a b pi2 ci).1).set cur
                  (transferArrayItem a b pi2 ci).2)
                + ((b : Multiset Task) + (a : Multiset Task))
              = (boardTasks ((cols.set prev (transferArrayItem a b pi2 ci).1).set cur
                  (transferArrayItem a b pi2 ci).2)
                + (b : Multiset Task)) + (a : Multiset Task) := by rw [add_assoc]
            _ = (boardTasks (cols.set prev (transferArrayItem a b pi2 ci).1)
                + ((transferArrayItem a b pi2 ci).2 : Multiset Task)) + (a : Multiset Task) := by
                  rw [h2]
            _ = (boardTasks (cols.set prev (transferArrayItem a b pi2 ci).1)
                + (a : Multiset Task)) + ((transferArrayItem a b pi2 ci).2 : Multiset Task) := by
                  rw [add_right_comm]
            _ = (boardTasks cols + ((transferArrayItem a b pi2 ci).1 : Multiset Task))
                + ((transferArrayItem a b pi2 ci).2 : Multiset Task) := by rw [h1]
            _ = boardTasks cols + (((transferArrayItem a b pi2 ci).1 : Multiset Task)
                + ((transferArrayItem a b pi2 ci).2 : Multiset Task)) := by rw [add_assoc]
            _ = boardTasks cols + ((a : Multiset Task) + (b : Multiset Task)) := by rw [htr]
            _ = boardTasks cols + ((b : Multiset Task) + (a : Multiset Task)) := by
                  rw [add_comm (a : Multiset Task) (b : Multiset Task)]
        exact add_right_cancel key

/-- C3: for every sequence of drag-drop events (same-column reorders and
cross-column transfers), the multiset of tasks across all board columns is
invariant — no task is created, duplicated, or lost. -/
theorem drops_preserve_task_multiset (es : List DropEv) (cols : List (List Task)) :
    boardTasks (applyDrops cols es) = boardTasks cols := by
  induction es generalizing cols with
  | nil => rfl
  | cons e rest ih =>
    have hstep : applyDrops cols (e :: rest) = applyDrops (applyDrop cols e) rest := rfl
    rw [hstep, ih (applyDrop cols e)]
    exact drop_boardTasks cols e.prev e.cur e.fromIdx e.toIdx

/-- Helper: the committed field bundle never changes a task's id. -/
lemma applyPatch_id (t : Task) (p : TaskPatch) : (applyPatch t p).id = t.id := rfl

/-- Helper: when exactly one element satisfies the predicate, `find?`
returns the satisfying member. -/
lemma find?_of_countP_one {α : Type} (p2 : α → Bool) :
    ∀ (l : List α) (x : α), x ∈ l → p2 x = true → l.countP p2 = 1 → l.find? p2 = some x
  | [], x, hx, _, _ => absurd hx (List.not_mem_nil x)
  | a :: t, x, hx, hpx, hcnt => by
    by_cases hpa : p2 a = true
    · rw [List.countP_cons, if_pos hpa] at hcnt
      have hxa : x = a := by
        rcases List.mem_cons.mp hx with rfl | hxt
        · rfl
        · exact absurd (List.countP_pos_iff.mpr ⟨x, hxt, hpx⟩) (by omega)
      subst hxa
      exact List.find?_cons_of_pos t hpa
    · have hxt : x ∈ t := by
        rcases List.mem_cons.mp hx with rfl | hxt
        · exact absurd hpx hpa
        · exact hxt
      rw [List.find?_cons_of_neg t hpa]
      rw [List.countP_cons, if_neg hpa] at hcnt
      exact find?_of_countP_one p2 t x hxt hpx (by omega)

/-- Helper: `find?` returns the unique satisfying element. -/
lemma find?_of_unique {α : Type} (p2 : α → Bool) :
    ∀ (l : List α) (x : α), x ∈ l → p2 x = true →
      (∀ y ∈ l, y ≠ x → p2 y = false) → l.find? p2 = some x
  | [], x, hx, _, _ => absurd hx (List.not_mem_nil x)
  | a :: t, x, hx, hpx, huniq => by
    by_cases hax : a = x
    · subst hax
      exact List.find?_cons_of_pos t hpx
    · have hpa : p2 a = false := huniq a (List.mem_cons_self a t) hax
      rw [List.find?_cons_of_neg t (by simp [hpa])]
      have hxt : x ∈ t := (List.mem_cons.mp hx).resolve_left (fun h => hax h.symm)
      exact find?_of_unique p2 t x hxt hpx
        (fun y hy hne => huniq y (List.mem_cons_of_mem a hy) hne)

/-- Helper: the patch map is the identity on a task list free of the edited
id. -/
lemma map_patch_countP_zero (tid : String) (p : TaskPatch) :
    ∀ ts : List Task, ts.countP (fun t => t.id = tid) = 0 →
      ts.map (fun t => if t.id = tid then applyPatch t p else t) = ts
  | [], _ => rfl
  | a :: ts, h => by
    rw [List.countP_cons] at h
    by_cases ha : a.id = tid
    · simp [ha] at h
    · rw [List.map_cons, if_neg ha,
        map_patch_countP_zero tid p ts (by simpa [ha] using h)]

/-- Helper: removing the edited id commutes with patching (patching
preserves ids). -/
lemma filter_map_patch (tid : String) (p : TaskPatch) :
    ∀ ts : List Task,
      (ts.map (fun t => if t.id = tid then applyPatch t p else t)).filter
          (fun t => t.id ≠ tid)
        = ts.filter (fun t => t.id ≠ tid)
  | [] => rfl
  | a :: ts => by
    by_cases ha : a.id = tid
    · rw [List.map_cons, if_pos ha]
      simp [List.filter_cons, applyPatch_id, ha]
      simpa using filter_map_patch tid p ts
    · rw [List.map_cons, if_neg ha]
      simp [List.filter_cons, ha]
      simpa using filter_map_patch tid p ts

/-- C4: on a well-formed board (the edited task occurs exactly once, column
ids distinct), `saveTask` mutates the task's fields in place, and exactly
when the resolved destination column differs from the owning column it
removes the task from the owning column's list and appends the patched task
at the tail of the destination column's list, leaving every other column
untouched. -/
theorem saveTask_move_semantics (cols : List Column) (tid : String) (p : TaskPatch)
    (oc dc : Column) (t0 : Task)
    (hnd : (cols.map Column.id).Nodup)
    (hoc : oc ∈ cols) (hdc : dc ∈ cols)
    (ht0 : t0 ∈ oc.tasks) (htid : t0.id = tid)
    (hcnt : oc.tasks.countP (fun t => t.id = tid) = 1)
    (hother : ∀ c ∈ cols, c.id ≠ oc.id → c.tasks.countP (fun t => t.id = tid) = 0) :
    (dc.id = oc.id →
      saveTask cols tid (some dc.id) p =
        cols.map (fun c =>
          if c.id = oc.id then
            { c with tasks := c.tasks.map (fun t => if t.id = tid then applyPatch t p else t) }
          else c)) ∧
    (dc.id ≠ oc.id →
      saveTask cols tid (some dc.id) p =
        cols.map (fun c =>
          if c.id = oc.id then { c with tasks := c.tasks.filter (fun t => t.id ≠ tid) }
          else if c.id = dc.id then { c with tasks := c.tasks ++ [applyPatch t0 p] }
          else c)) := by
  have hinj := List.inj_on_of_nodup_map hnd
  have hfind_dc : cols.find? (fun c => c.id = dc.id) = some dc :=
    find_id_eq_of_mem_nodup Column.id cols dc hdc hnd
  have hdest : destinationColumnOf cols (some dc.id) = some dc := by
    unfold destinationColumnOf
    dsimp only
    rw [hfind_dc]
  have horig : originalColumnOf cols tid = some oc := by
    unfold originalColumnOf
    apply find?_of_unique _ cols oc hoc
    · exact List.any_eq_true.mpr ⟨t0, ht0, by simp [htid]⟩
    · intro y hy hne
      have hneid : y.id ≠ oc.id := fun he => hne (hinj hy hoc he)
      rw [List.any_eq_false]
      intro t ht
      exact List.countP_eq_zero.mp (hother y hy hneid) t ht
  have hfind_t0 : oc.tasks.find? (fun t => t.id = tid) = some t0 :=
    find?_of_countP_one _ oc.tasks t0 ht0 (by simp [htid]) hcnt
  constructor
  · intro heq
    unfold saveTask
    simp only [horig, hdest]
    rw [if_neg (fun h => h heq)]
    unfold patchTasks
    apply List.map_congr_left
    intro c hc
    by_cases hcid : c.id = oc.id
    · rw [if_pos hcid]
    · rw [if_neg hcid,
        map_patch_countP_zero tid p c.tasks (hother c hc hcid)]
  · intro hne2
    unfold saveTask
    simp only [horig, hdest]
    rw [if_pos hne2]
    simp only [hfind_t0]
    unfold patchTasks
    rw [List.map_map]
    apply List.map_congr_left
    intro c hc
    simp only [Function.comp]
    by_cases h1 : c.id = oc.id
    · rw [if_pos h1, if_pos h1, filter_map_patch tid p c.tasks]
    · rw [if_neg h1, if_neg h1]
      by_cases h2 : c.id = dc.id
      · rw [if_pos h2, if_pos h2,
          map_patch_countP_zero tid p c.tasks (hother c hc h1)]
      · rw [if_neg h2, if_neg h2,
          map_patch_countP_zero tid p c.tasks (hother c hc h1)]

/-- C4 witness: moving the scenario task from `new` to `completed` removes
it from `new` and appends the patched task at the tail of `completed`. -/
theorem saveTask_move_semantics_witness :
    saveTask twoColBoard "t1" (some "completed") samplePatch =
      [ { id := "new", title := "New task", tasks := [] },
        { id := "completed", title := "Completed",
          tasks := [twoHourTask, applyPatch sampleTask samplePatch] } ] := by
  have h := (saveTask_move_semantics twoColBoard "t1" samplePatch
      { id := "new", title := "New task", tasks := [sampleTask] }
      { id := "completed", title := "Completed", tasks := [twoHourTask] }
      sampleTask (by decide) (by decide) (by decide) (by decide) rfl (by decide)
      (by decide)).2 (by decide)
  exact h.trans (by decide)

end MentorApp
